import Mathlib

/-!
Shallow embedding of the `packages/memory/src/embeddings` module
(model-loader.ts, generator.ts, cache.ts, cached-generator.ts) of the
aios-core repository, together with theorems settling the frozen claims
about its specification.

Modelling conventions:
* The inference model (`pipeline` from `@xenova/transformers`) is an external
  collaborator; it is abstracted as a function `embed : String → α` (for the
  batch machinery, which never inspects vector contents, the component type is
  kept polymorphic; the numeric utilities `normalizeVector` and
  `cosineSimilarity` are embedded over `ℝ`, with `Math.sqrt` as `Real.sqrt`).
* The SQLite table `aios_embedding_cache` is a list of rows; its
  `PRIMARY KEY (content_hash)` semantics of `INSERT OR REPLACE` is embedded
  directly (remove every row with the same `content_hash`, insert the new one).
* SHA-256 (`hashContent`) and the current model version are parameters
  (`hash : String → String`, `current : String`); the source fixes
  `current := MODEL_NAME` and `hash :=` SHA-256.
* Divergence of the batch loop (`for (i = 0; i < n; i += batchSize)` with
  `batchSize ≤ 0`) is modelled with fuel: `none` means the loop does not
  terminate within the given fuel, and the fuel `texts.length` is provably
  enough whenever `batchSize ≥ 1`.
* Progress callbacks are modelled by returning the list of `BatchProgress`
  values in the order the callback would observe them.
-/

namespace AiosEmbeddings

/-! ### Constants from model-loader.ts -/

def MODEL_NAME : String := "Xenova/all-MiniLM-L6-v2"

def MODEL_DIMENSIONS : Nat := 384

/-! ### generator.ts -/

/-- Structure `BatchProgress` from generator.ts. -/
structure BatchProgress where
  current : Nat
  total : Nat
  percentage : Nat
deriving DecidableEq, Repr

/-- Embedding of `Math.round((current / total) * 100)` on exact rationals:
round-half-up of `100 * current / total`, as natural-number arithmetic. -/
def roundPct (current total : Nat) : Nat :=
  (200 * current + total) / (2 * total)

/-- The progress record emitted for item `current` of `total`. -/
def mkProgress (current total : Nat) : BatchProgress :=
  ⟨current, total, roundPct current total⟩

/-- JS `!text || text.trim().length === 0` (an empty string is falsy and also
trims to the empty string): the trimmed string is empty exactly when every
character of the string is whitespace, which is how it is embedded here. -/
def isBlank (s : String) : Bool := s.data.all Char.isWhitespace

/-- The per-item body of the loops in generator.ts: empty/whitespace-only
text yields the zero vector `zero` without invoking the model, any other text
is given to the (already normalization-composed) model call `embed`. -/
def processItem (embed : String → α) (zero : α) (t : String) : α :=
  if isBlank t then zero else embed t

/-- Sum of squares of a real vector (`vector.reduce((sum, val) => sum + val * val, 0)`). -/
def sumSq (v : List ℝ) : ℝ := (v.map (fun x => x * x)).sum

/-- Function `normalizeVector` from generator.ts: rescale to unit Euclidean norm,
returning the input unchanged when the magnitude is zero. -/
noncomputable def normalizeVector (v : List ℝ) : List ℝ :=
  let magnitude := Real.sqrt (sumSq v)
  if magnitude = 0 then v else v.map (fun x => x / magnitude)

/-- Function `generateEmbedding` from generator.ts with the raw pipeline output
abstracted as `pipeline : String → List ℝ`; `normalize = true` is the source
default (`options?.normalize !== false`). -/
noncomputable def generateEmbedding (pipeline : String → List ℝ)
    (normalize : Bool) (t : String) : List ℝ :=
  if isBlank t then List.replicate MODEL_DIMENSIONS 0
  else if normalize then normalizeVector (pipeline t) else pipeline t

/-- The error thrown by `cosineSimilarity` when dimensions differ. -/
inductive SimError where
  | dimensionMismatch
deriving DecidableEq, Repr

/-- Function `cosineSimilarity` from generator.ts. -/
noncomputable def cosineSimilarity (a b : List ℝ) : Except SimError ℝ :=
  if a.length ≠ b.length then .error .dimensionMismatch
  else
    let dotProduct := ((a.zip b).map (fun p => p.1 * p.2)).sum
    let magnitude := Real.sqrt (sumSq a) * Real.sqrt (sumSq b)
    if magnitude = 0 then .ok 0 else .ok (dotProduct / magnitude)

/-- Default `batchSize` in `generateEmbeddings` (`options?.batchSize ?? 32`). -/
def defaultBatchSize : Nat := 32

/-- The batch loop of `generateEmbeddings`
(`for (let i = 0; i < texts.length; i += batchSize)` with the inner per-item
loop): consumes `texts.take bs` per iteration, collecting one output and one
progress event per item. `fuel` bounds the number of loop iterations;
`none` models non-termination (with `bs = 0` the index never advances). -/
def genLoop (embed : String → α) (zero : α) (bs total : Nat) :
    Nat → Nat → List String → Option (List α × List BatchProgress)
  | _, _, [] => some ([], [])
  | 0, _, _ :: _ => none
  | fuel + 1, idx, t :: ts =>
    let batch := (t :: ts).take bs
    match genLoop embed zero bs total fuel (idx + batch.length) ((t :: ts).drop bs) with
    | none => none
    | some (os, es) =>
      some (batch.map (processItem embed zero) ++ os,
        (List.range batch.length).map (fun j => mkProgress (idx + j + 1) total) ++ es)

/-- Function `generateEmbeddings` from generator.ts, with the model call abstracted as
`embed` (the source composes the raw pipeline call with optional
normalization). Returns the outputs together with the progress events a
supplied callback would observe; `none` models divergence of the batch loop
(the fuel `texts.length` suffices for every `batchSize ≥ 1`). -/
def generateEmbeddings (embed : String → α) (zero : α) (batchSize : Option Nat)
    (texts : List String) : Option (List α × List BatchProgress) :=
  if texts.isEmpty then some ([], [])
  else genLoop embed zero (batchSize.getD defaultBatchSize) texts.length
    texts.length 0 texts

/-- The progress-event stream `generateEmbeddings` produces for `n` items:
`current = 1, …, n`, `total = n`. -/
def progressList (n : Nat) : List BatchProgress :=
  (List.range n).map (fun j => mkProgress (j + 1) n)

/-! ### cache.ts

The table `aios_embedding_cache` has `content_hash TEXT PRIMARY KEY` and
columns `embedding BLOB, model_version TEXT, dimensions INTEGER,
created_at TEXT`. A row is modelled with the blob round-trip abstracted
(`embedding : α`) and the timestamp as a `Nat`. -/

/-- One row of `aios_embedding_cache`. -/
structure CacheRow (α : Type) where
  content_hash : String
  embedding : α
  model_version : String
  dimensions : Nat
  created_at : Nat
deriving DecidableEq, Repr

/-- The cache-visible state: the SQLite table plus the process-wide
in-memory counters `cacheHits` / `cacheMisses` from cache.ts. -/
structure CacheState (α : Type) where
  table : List (CacheRow α)
  cacheHits : Nat
  cacheMisses : Nat
deriving DecidableEq, Repr

/-- The lookup `SELECT … WHERE content_hash = ? AND model_version = ?`
(at most one row can match, `content_hash` being the primary key). -/
def lookupRow (hash : String → String) (current : String)
    (table : List (CacheRow α)) (content : String) : Option (CacheRow α) :=
  table.find? (fun r => r.content_hash == hash content && r.model_version == current)

/-- Function `getCachedEmbedding` from cache.ts: look up `(hash content, current)`,
bumping the hit or miss counter. The source fixes `current := MODEL_NAME`. -/
def getCachedEmbedding (hash : String → String) (current : String)
    (s : CacheState α) (content : String) : Option α × CacheState α :=
  match lookupRow hash current s.table content with
  | some r => (some r.embedding, { s with cacheHits := s.cacheHits + 1 })
  | none => (none, { s with cacheMisses := s.cacheMisses + 1 })

/-- Function `cacheEmbedding` from cache.ts: `INSERT OR REPLACE` keyed by the
table's primary key `content_hash` — every existing row with the same
content hash (whatever its `model_version`) is replaced. The source
stores `model_version := MODEL_NAME` and `dimensions := MODEL_DIMENSIONS`. -/
def cacheEmbedding (hash : String → String) (current : String) (now : Nat)
    (s : CacheState α) (content : String) (embedding : α) : CacheState α :=
  { s with table :=
      ⟨hash content, embedding, current, MODEL_DIMENSIONS, now⟩ ::
        s.table.filter (fun r => r.content_hash != hash content) }

/-- Structure `CacheStats` from cache.ts (`hitRate` kept exact, as a rational). -/
structure CacheStats where
  hits : Nat
  misses : Nat
  hitRate : ℚ
  totalEntries : Nat
  modelVersion : String
deriving DecidableEq, Repr

/-- Function `getCacheStats` from cache.ts: `totalEntries` counts only the rows of
the current model version. -/
def getCacheStats (current : String) (s : CacheState α) : CacheStats :=
  let totalRequests := s.cacheHits + s.cacheMisses
  { hits := s.cacheHits
    misses := s.cacheMisses
    hitRate := if totalRequests > 0 then (s.cacheHits : ℚ) / (totalRequests : ℚ) else 0
    totalEntries := (s.table.filter (fun r => r.model_version == current)).length
    modelVersion := current }

/-- Function `resetCacheStats` from cache.ts. -/
def resetCacheStats (s : CacheState α) : CacheState α :=
  { s with cacheHits := 0, cacheMisses := 0 }

/-- Function `clearCache` from cache.ts: `DELETE … WHERE model_version = ?` for the
current version, then `resetCacheStats()`; returns `result.changes`. -/
def clearCache (current : String) (s : CacheState α) : Nat × CacheState α :=
  let deleted := (s.table.filter (fun r => r.model_version == current)).length
  (deleted, resetCacheStats { s with table := s.table.filter (fun r => r.model_version != current) })

/-- Function `clearOldCache` from cache.ts: delete the rows whose `model_version`
differs from the current one; the counters are untouched. -/
def clearOldCache (current : String) (s : CacheState α) : Nat × CacheState α :=
  let deleted := (s.table.filter (fun r => r.model_version != current)).length
  (deleted, { s with table := s.table.filter (fun r => r.model_version == current) })

/-- Function `invalidateCacheEntry` from cache.ts: delete by `content_hash` alone
(any model version); reports whether a row was removed. -/
def invalidateCacheEntry (hash : String → String) (s : CacheState α)
    (content : String) : Bool × CacheState α :=
  let kept := s.table.filter (fun r => r.content_hash != hash content)
  (kept.length < s.table.length, { s with table := kept })

/-! ### cached-generator.ts -/

/-- The zero vector returned for empty/whitespace-only input
(`new Array(MODEL_DIMENSIONS).fill(0)`), with rational components. -/
def zeroVec : List ℚ := List.replicate MODEL_DIMENSIONS 0

/-- Function `generateEmbeddingCached` from cached-generator.ts: probe the cache
(when `useCache`), on a miss compute `generateEmbedding` — abstracted as
`processItem embed zero` — and store the result into the cache. -/
def generateEmbeddingCached (hash : String → String) (current : String) (now : Nat)
    (embed : String → α) (zero : α) (useCache : Bool)
    (s : CacheState α) (text : String) : α × CacheState α :=
  if useCache then
    match getCachedEmbedding hash current s text with
    | (some cached, s₁) => (cached, s₁)
    | (none, s₁) =>
      let embedding := processItem embed zero text
      (embedding, cacheEmbedding hash current now s₁ text embedding)
  else
    (processItem embed zero text, s)

/-- The cache-probing loop of `generateEmbeddingsCached`: one probe per
input position (recording `some hit` or `none`), threading the counter
state. With `useCache = false` no probe happens and every position is a
miss. -/
def probeLoop (hash : String → String) (current : String) (useCache : Bool) :
    List String → CacheState α → List (Option α) × CacheState α
  | [], s => ([], s)
  | t :: ts, s =>
    if useCache then
      match getCachedEmbedding hash current s t with
      | (some v, s₁) =>
        let rest := probeLoop hash current useCache ts s₁
        (some v :: rest.1, rest.2)
      | (none, s₁) =>
        let rest := probeLoop hash current useCache ts s₁
        (none :: rest.1, rest.2)
    else
      let rest := probeLoop hash current useCache ts s
      (none :: rest.1, rest.2)

/-- Reassembly of `results`: cache hits keep their slot, freshly generated
vectors fill the miss slots in order (the source records miss indices and
writes `results[index] = generated[i]`; positionally this is an ordered
merge). -/
def mergeResults : List (Option α) → List α → List α
  | [], _ => []
  | some v :: rest, gen => v :: mergeResults rest gen
  | none :: rest, gen =>
    match gen with
    | [] => []
    | g :: gs => g :: mergeResults rest gs

/-- The value a cache probe of `content` against `table` yields. -/
def probeVal (hash : String → String) (current : String)
    (table : List (CacheRow α)) (content : String) : Option α :=
  (lookupRow hash current table content).map (fun r => r.embedding)

/-- The sublist of `texts` that miss against `table` (the source's
`textsToGenerate`, without the indices). -/
def missedTexts (hash : String → String) (current : String)
    (table : List (CacheRow α)) (texts : List String) : List String :=
  texts.filter (fun t => (probeVal hash current table t).isNone)

/-- How one input position resolves: the cached embedding when `table` has a
row for `(hash t, current)`, otherwise the freshly computed embedding. -/
def resolveOne (hash : String → String) (current : String)
    (embed : String → α) (zero : α) (table : List (CacheRow α)) (t : String) : α :=
  (probeVal hash current table t).getD (processItem embed zero t)

/-- Function `generateEmbeddingsCached` from cached-generator.ts: probe every
position, run `generateEmbeddings` over the miss subset, adjust each
progress event by the number of cache hits (recomputing the percentage
against the full length), store the fresh vectors, and merge results back
into input order. `none` models divergence of the inner batch loop. -/
def generateEmbeddingsCached (hash : String → String) (current : String) (now : Nat)
    (embed : String → α) (zero : α) (useCache : Bool) (batchSize : Option Nat)
    (s : CacheState α) (texts : List String) :
    Option (List α × List BatchProgress × CacheState α) :=
  if texts.isEmpty then some ([], [], s)
  else
    let probed := probeLoop hash current useCache texts s
    let missTexts := (texts.zip probed.1).filterMap
      (fun q => if q.2.isNone then some q.1 else none)
    if missTexts.isEmpty then some (mergeResults probed.1 [], [], probed.2)
    else
      match generateEmbeddings embed zero batchSize missTexts with
      | none => none
      | some (gen, events) =>
        let cachedCount := texts.length - missTexts.length
        let adjEvents := events.map
          (fun p => mkProgress (cachedCount + p.current) texts.length)
        let s₂ := if useCache then
            (missTexts.zip gen).foldl
              (fun st q => cacheEmbedding hash current now st q.1 q.2) probed.2
          else probed.2
        some (mergeResults probed.1 gen, adjEvents, s₂)

/-- The adjusted progress-event stream `generateEmbeddingsCached` emits for
`n` requested items of which `m` missed the cache. -/
def adjProgressList (n m : Nat) : List BatchProgress :=
  (List.range m).map (fun k => mkProgress (n - m + (k + 1)) n)

/-! ### model-loader.ts -/

/-- The module-level singleton state of model-loader.ts:
`embeddingPipeline`, `isLoading`, `loadError`. `H` is the pipeline handle
type, `E` the error type. -/
structure LoaderState (H E : Type) where
  embeddingPipeline : Option H
  isLoading : Bool
  loadError : Option E
deriving DecidableEq, Repr

/-- The state before any load: all three variables at their initializers. -/
def initialLoaderState : LoaderState H E := ⟨none, false, none⟩

/-- Function `getEmbeddingPipeline` from model-loader.ts, one sequential call.
`attempt` is what `pipeline('feature-extraction', MODEL_NAME, …)` would
yield if initialization were actually attempted. The result is
`(outcome, state after the call, whether a new initialization was
attempted)`; `none` models the polling branch (`isLoading` with neither a
pipeline nor a stored error), which never resolves without a concurrent
writer. -/
def getEmbeddingPipeline (attempt : Except E H) (s : LoaderState H E) :
    Option (Except E H × LoaderState H E × Bool) :=
  match s.embeddingPipeline with
  | some p => some (.ok p, s, false)
  | none =>
    match s.loadError with
    | some e => some (.error e, s, false)
    | none =>
      if s.isLoading then none
      else
        match attempt with
        | .ok h => some (.ok h, ⟨some h, false, none⟩, true)
        | .error e => some (.error e, ⟨none, false, some e⟩, true)

/-- Function `unloadModel` from model-loader.ts: clear the pipeline, the stored
error and the loading flag. -/
def unloadModel (_s : LoaderState H E) : LoaderState H E := ⟨none, false, none⟩

/-! ### Helper lemmas: the batch loop of generator.ts -/

/-- Splitting a mapped range at `b`. -/
theorem range_map_append (F : Nat → β) (b d : Nat) :
    (List.range (b + d)).map F =
      (List.range b).map F ++ (List.range d).map (fun j => F (b + j)) := by
  rw [List.range_add b d, List.map_append, List.map_map]
  rfl

/-- With a positive batch size and fuel at least the number of remaining
texts, the batch loop returns every per-item output and one progress event
per item, in input order. -/
theorem genLoop_eq (embed : String → α) (zero : α) (bs total : Nat) (hbs : 1 ≤ bs) :
    ∀ fuel idx texts, List.length texts ≤ fuel →
      genLoop embed zero bs total fuel idx texts =
        some (texts.map (processItem embed zero),
          (List.range texts.length).map (fun j => mkProgress (idx + j + 1) total)) := by
  intro fuel
  induction fuel with
  | zero =>
    intro idx texts h
    match texts with
    | [] => simp [genLoop]
    | t :: ts => simp at h
  | succ fuel ih =>
    intro idx texts h
    match texts with
    | [] => simp [genLoop]
    | t :: ts =>
      have hdl : ((t :: ts).drop bs).length ≤ fuel := by
        simp only [List.length_drop, List.length_cons]
        simp only [List.length_cons] at h
        omega
      have hih := ih (idx + ((t :: ts).take bs).length) ((t :: ts).drop bs) hdl
      have hsplit : ((t :: ts).take bs).length + ((t :: ts).drop bs).length
          = (t :: ts).length := by
        simp only [List.length_take, List.length_drop, List.length_cons]
        omega
      simp only [genLoop, hih]
      refine congrArg some (Prod.ext ?_ ?_)
      · rw [← List.map_append, List.take_append_drop]
      · rw [← hsplit, range_map_append]
        refine congrArg (fun z => _ ++ z) ?_
        refine List.map_congr_left fun j _ => ?_
        exact congrArg (fun x => mkProgress x total) (by omega)

/-- With batch size `0` on a nonempty list the loop index never advances:
no amount of fuel makes the loop terminate. -/
theorem genLoop_zero_none (embed : String → α) (zero : α) (total : Nat) :
    ∀ fuel idx (texts : List String), texts ≠ [] →
      genLoop embed zero 0 total fuel idx texts = none := by
  intro fuel
  induction fuel with
  | zero =>
    intro idx texts hne
    match texts with
    | [] => exact absurd rfl hne
    | t :: ts => rfl
  | succ fuel ih =>
    intro idx texts hne
    match texts with
    | [] => exact absurd rfl hne
    | t :: ts =>
      simp only [genLoop, List.take_zero, List.drop_zero, List.length_nil, Nat.add_zero]
      rw [ih idx (t :: ts) (List.cons_ne_nil t ts)]

/-- Evaluation of `generateEmbeddings` with any batch size of at least `1`: one output
per input in input order, one progress event per item with
`current = 1, …, n` and `total = n`. -/
theorem generateEmbeddings_eq (embed : String → α) (zero : α) (bs? : Option Nat)
    (hbs : 1 ≤ bs?.getD defaultBatchSize) (texts : List String) :
    generateEmbeddings embed zero bs? texts
      = some (texts.map (processItem embed zero), progressList texts.length) := by
  match texts with
  | [] => simp [generateEmbeddings, progressList]
  | t :: ts =>
    have hne : ((t :: ts) : List String).isEmpty = false := rfl
    rw [generateEmbeddings, hne]
    simp only [Bool.false_eq_true, if_false]
    rw [genLoop_eq embed zero _ _ hbs _ 0 (t :: ts) (Nat.le_refl _)]
    refine congrArg some (Prod.ext rfl ?_)
    simp only [progressList]
    refine List.map_congr_left fun j _ => ?_
    exact congrArg (fun x => mkProgress x (t :: ts).length) (by omega)

/-! ### Helper lemmas: the cache probe / merge machinery of cached-generator.ts -/

/-- A cache probe only touches the counters, never the table. -/
theorem getCachedEmbedding_table (hash : String → String) (current : String)
    (s : CacheState α) (t : String) :
    (getCachedEmbedding hash current s t).2.table = s.table := by
  unfold getCachedEmbedding
  cases lookupRow hash current s.table t <;> rfl

/-- The probe loop records, per input position, exactly the probe of that
text against the initial table (counters are bumped along the way but the
table is never changed, so every probe sees the initial table). -/
theorem probeLoop_fst (hash : String → String) (current : String) :
    ∀ (ts : List String) (s : CacheState α),
      (probeLoop hash current true ts s).1 = ts.map (probeVal hash current s.table) := by
  intro ts
  induction ts with
  | nil => intro s; rfl
  | cons t ts ih =>
    intro s
    simp only [probeLoop, if_true, List.map_cons]
    cases h : lookupRow hash current s.table t with
    | some r =>
      simp only [getCachedEmbedding, h]
      rw [ih]
      simp [probeVal, h]
    | none =>
      simp only [getCachedEmbedding, h]
      rw [ih]
      simp [probeVal, h]

/-- The probe loop leaves the table unchanged. -/
theorem probeLoop_table (hash : String → String) (current : String) (u : Bool) :
    ∀ (ts : List String) (s : CacheState α),
      (probeLoop hash current u ts s).2.table = s.table := by
  intro ts
  induction ts with
  | nil => intro s; rfl
  | cons t ts ih =>
    intro s
    simp only [probeLoop]
    cases u with
    | false => simpa using ih s
    | true =>
      simp only [if_true]
      cases h : lookupRow hash current s.table t with
      | some r => simp only [getCachedEmbedding, h]; exact ih _
      | none => simp only [getCachedEmbedding, h]; exact ih _

/-- The source's `textsToGenerate` (as texts, dropping the indices) is the
sublist of inputs whose probe missed. -/
theorem missTexts_eq (p : String → Option α) : ∀ texts : List String,
    (texts.zip (texts.map p)).filterMap (fun q => if q.2.isNone then some q.1 else none)
      = texts.filter (fun t => (p t).isNone) := by
  intro texts
  induction texts with
  | nil => rfl
  | cons t ts ih =>
    simp only [List.map_cons, List.zip_cons_cons, List.filterMap_cons, List.filter_cons]
    cases hp : p t <;> simp [hp, ih]

/-- Writing the vectors freshly generated for the miss subset back into
their original slots recovers, at every position, the probe value when it
hit and the fresh value when it missed. -/
theorem mergeResults_map (f : String → α) (p : String → Option α) :
    ∀ texts : List String,
      mergeResults (texts.map p) ((texts.filter (fun t => (p t).isNone)).map f)
        = texts.map (fun t => (p t).getD (f t)) := by
  intro texts
  induction texts with
  | nil => rfl
  | cons t ts ih =>
    simp only [List.map_cons, List.filter_cons]
    cases hp : p t with
    | some v => simpa [mergeResults, hp] using ih
    | none => simpa [mergeResults, hp] using ih

/-- Master characterization of `generateEmbeddingsCached` with the cache
enabled and a positive batch size: the outputs resolve every position
against the initial table in input order, and the progress stream is the
hit-adjusted one. -/
theorem generateEmbeddingsCached_eq (hash : String → String) (current : String)
    (now : Nat) (embed : String → α) (zero : α) (bs? : Option Nat)
    (s : CacheState α) (texts : List String)
    (hbs : 1 ≤ bs?.getD defaultBatchSize) :
    ∃ s', generateEmbeddingsCached hash current now embed zero true bs? s texts
      = some (texts.map (resolveOne hash current embed zero s.table),
          adjProgressList texts.length (missedTexts hash current s.table texts).length,
          s') := by
  unfold generateEmbeddingsCached
  match texts with
  | [] => exact ⟨s, by simp [adjProgressList, missedTexts]⟩
  | t :: ts =>
    have hne : ((t :: ts) : List String).isEmpty = false := rfl
    rw [hne]
    simp only [Bool.false_eq_true, if_false]
    rw [probeLoop_fst hash current (t :: ts) s,
      missTexts_eq (probeVal hash current s.table) (t :: ts)]
    by_cases hm : ((t :: ts).filter
        (fun u => (probeVal hash current s.table u).isNone)).isEmpty
    · rw [if_pos hm]
      refine ⟨(probeLoop hash current true (t :: ts) s).2, ?_⟩
      have hemp : ((t :: ts).filter
          (fun u => (probeVal hash current s.table u).isNone)) = [] :=
        List.isEmpty_iff.mp hm
      have hmerge := mergeResults_map (processItem embed zero)
        (probeVal hash current s.table) (t :: ts)
      rw [hemp] at hmerge
      simp only [List.map_nil] at hmerge
      rw [hmerge]
      simp [adjProgressList, missedTexts, hemp, resolveOne]
    · rw [if_neg hm]
      rw [generateEmbeddings_eq embed zero bs? hbs]
      dsimp only
      have h1 : mergeResults ((t :: ts).map (probeVal hash current s.table))
          (((t :: ts).filter (fun u => (probeVal hash current s.table u).isNone)).map
            (processItem embed zero))
          = (t :: ts).map (resolveOne hash current embed zero s.table) := by
        rw [mergeResults_map (processItem embed zero) (probeVal hash current s.table)]
        rfl
      have h2 : (progressList ((t :: ts).filter
            (fun u => (probeVal hash current s.table u).isNone)).length).map
            (fun p => mkProgress ((t :: ts).length - ((t :: ts).filter
              (fun u => (probeVal hash current s.table u).isNone)).length + p.current)
              (t :: ts).length)
          = adjProgressList (t :: ts).length
              (missedTexts hash current s.table (t :: ts)).length := by
        simp only [progressList, adjProgressList, missedTexts, List.map_map]
        rfl
      rw [h1, h2]
      exact ⟨_, rfl⟩

/-! ### Helper lemmas: cache.ts -/

/-- Membership after an upsert: the new row plus every old row whose
content hash differs. -/
theorem mem_cacheEmbedding_table (hash : String → String) (current : String)
    (now : Nat) (s : CacheState α) (content : String) (emb : α) (r : CacheRow α) :
    r ∈ (cacheEmbedding hash current now s content emb).table ↔
      r = ⟨hash content, emb, current, MODEL_DIMENSIONS, now⟩ ∨
        (r ∈ s.table ∧ r.content_hash ≠ hash content) := by
  simp [cacheEmbedding, List.mem_filter, bne_iff_ne, and_comm]

/-- The upserted row is what a lookup for `(hash content, current)` finds. -/
theorem lookupRow_cacheEmbedding (hash : String → String) (current : String)
    (now : Nat) (s : CacheState α) (content : String) (emb : α) :
    lookupRow hash current (cacheEmbedding hash current now s content emb).table content
      = some ⟨hash content, emb, current, MODEL_DIMENSIONS, now⟩ := by
  unfold lookupRow cacheEmbedding
  exact List.find?_cons_of_pos _ (by simp)

/-! ### Helper lemmas: vector arithmetic of generator.ts -/

theorem sumSq_nil : sumSq [] = 0 := rfl

theorem sumSq_cons (x : ℝ) (v : List ℝ) : sumSq (x :: v) = x * x + sumSq v := by
  simp [sumSq]

theorem sumSq_nonneg (v : List ℝ) : 0 ≤ sumSq v := by
  induction v with
  | nil => simp [sumSq_nil]
  | cons x v ih =>
    rw [sumSq_cons]
    exact add_nonneg (mul_self_nonneg x) ih

theorem sumSq_map_div (v : List ℝ) (m : ℝ) :
    sumSq (v.map (fun x => x / m)) = sumSq v / (m * m) := by
  induction v with
  | nil => simp [sumSq_nil]
  | cons x v ih =>
    rw [List.map_cons, sumSq_cons, sumSq_cons, ih]
    rw [div_mul_div_comm, add_div]

/-! ### Claims -/

/-- C5 (confirmed): for every input list and every batch size of at least 1
(the default `32` included), `generateEmbeddings` returns one output per
input in input order; the empty input yields an empty result with an empty
progress stream; the progress callback fires exactly once per item with
`current = 1, 2, …, n` strictly increasing and independent of the batch
size. -/
theorem generateEmbeddings_once_per_item (embed : String → α) (zero : α)
    (bs? : Option Nat) (texts : List String)
    (hbs : 1 ≤ bs?.getD defaultBatchSize) :
    generateEmbeddings embed zero bs? texts
      = some (texts.map (processItem embed zero), progressList texts.length) ∧
    generateEmbeddings embed zero bs? [] = some ([], []) ∧
    (progressList texts.length).map (fun e => e.current)
      = (List.range texts.length).map (fun j => j + 1) ∧
    List.Pairwise (fun a b => a.current < b.current) (progressList texts.length) := by
  refine ⟨generateEmbeddings_eq embed zero bs? hbs texts, rfl, ?_, ?_⟩
  · rw [progressList, List.map_map]
    rfl
  · rw [progressList]
    exact List.Pairwise.map _ (fun a b hab => Nat.add_lt_add_right hab 1)
      (List.pairwise_lt_range texts.length)

/-- Witness for C5 at a concrete input: text 2 is whitespace-only and
yields the zero output; the three progress events are
`(1,3,33) (2,3,67) (3,3,100)`. -/
theorem generateEmbeddings_once_per_item_w :
    generateEmbeddings (fun _ => (7 : Nat)) 0 (some 2) ["a", " ", "b"]
      = some ([7, 0, 7], [⟨1, 3, 33⟩, ⟨2, 3, 67⟩, ⟨3, 3, 100⟩]) := by
  have h := (generateEmbeddings_once_per_item (fun _ => (7 : Nat)) 0 (some 2)
    ["a", " ", "b"] (by decide)).1
  rw [h]
  rfl

/-- C10 (confirmed): `generateEmbeddings` terminates whenever
`batchSize ≥ 1` (including the default 32 used when no batch size is
given), processing each text exactly once, whereas with `batchSize = 0`
the loop index never advances: on a nonempty input the loop does not
terminate for any amount of fuel. -/
theorem generateEmbeddings_termination (embed : String → α) (zero : α)
    (bs? : Option Nat) (texts : List String) :
    (1 ≤ bs?.getD defaultBatchSize →
      (generateEmbeddings embed zero bs? texts).map (fun r => r.1)
        = some (texts.map (processItem embed zero))) ∧
    (generateEmbeddings embed zero none texts).map (fun r => r.1.length)
      = some texts.length ∧
    (texts ≠ [] → ∀ total fuel idx,
      genLoop embed zero 0 total fuel idx texts = none) := by
  refine ⟨?_, ?_, ?_⟩
  · intro hbs
    rw [generateEmbeddings_eq embed zero bs? hbs texts]
    rfl
  · rw [generateEmbeddings_eq embed zero none (by decide) texts]
    simp
  · intro hne total fuel idx
    exact genLoop_zero_none embed zero total fuel idx texts hne

/-- Witness for C10 at a concrete input: batch size 1 terminates on two
texts; batch size 0 returns `none` (non-termination) at fuel 5. -/
theorem generateEmbeddings_termination_w :
    (generateEmbeddings (fun _ => (0 : Nat)) 0 (some 1) ["x", "y"]).map (fun r => r.1)
      = some (["x", "y"].map (processItem (fun _ => (0 : Nat)) 0)) ∧
    genLoop (fun _ => (0 : Nat)) 0 0 2 5 0 ["x", "y"] = none :=
  ⟨(generateEmbeddings_termination (fun _ => (0 : Nat)) 0 (some 1) ["x", "y"]).1
      (by decide),
    (generateEmbeddings_termination (fun _ => (0 : Nat)) 0 (some 1) ["x", "y"]).2.2
      (by decide) 2 5 0⟩

/-- C8 (confirmed): `cosineSimilarity` raises the dimension-mismatch error
exactly when the two vectors differ in length, and produces a numeric
result exactly when the lengths agree (so differing lengths are never
silently truncated or padded into a numeric result). -/
theorem cosineSimilarity_dimension_check (a b : List ℝ) :
    (cosineSimilarity a b = .error .dimensionMismatch ↔ a.length ≠ b.length) ∧
    ((∃ r, cosineSimilarity a b = .ok r) ↔ a.length = b.length) := by
  by_cases h : a.length = b.length
  · have hok : cosineSimilarity a b
        = if Real.sqrt (sumSq a) * Real.sqrt (sumSq b) = 0 then .ok 0
          else .ok (((a.zip b).map (fun p => p.1 * p.2)).sum
            / (Real.sqrt (sumSq a) * Real.sqrt (sumSq b))) := by
      unfold cosineSimilarity
      rw [if_neg (by simpa using h)]
    refine ⟨⟨fun hc => ?_, fun hc => absurd h hc⟩, ⟨fun _ => h, fun _ => ?_⟩⟩
    · rw [hok] at hc
      by_cases hm : Real.sqrt (sumSq a) * Real.sqrt (sumSq b) = 0
      · rw [if_pos hm] at hc
        exact Except.noConfusion hc
      · rw [if_neg hm] at hc
        exact Except.noConfusion hc
    · rw [hok]
      by_cases hm : Real.sqrt (sumSq a) * Real.sqrt (sumSq b) = 0
      · exact ⟨0, by rw [if_pos hm]⟩
      · exact ⟨_, by rw [if_neg hm]⟩
  · have herr : cosineSimilarity a b = .error .dimensionMismatch := by
      unfold cosineSimilarity
      rw [if_pos (by simpa using h)]
    refine ⟨⟨fun _ => h, fun _ => herr⟩, ⟨?_, fun hc => absurd hc h⟩⟩
    rintro ⟨r, hr⟩
    rw [herr] at hr
    simp at hr

/-- C6 (confirmed): `normalizeVector` is total, returns a zero-magnitude
vector unchanged, rescales any nonzero-magnitude vector to unit Euclidean
norm, and `generateEmbedding` applies it exactly when `normalize` is not
disabled. -/
theorem normalizeVector_no_div_by_zero :
    (∀ v : List ℝ, Real.sqrt (sumSq v) = 0 → normalizeVector v = v) ∧
    (∀ v : List ℝ, Real.sqrt (sumSq v) ≠ 0 →
      normalizeVector v = v.map (fun x => x / Real.sqrt (sumSq v)) ∧
      sumSq (normalizeVector v) = 1 ∧
      Real.sqrt (sumSq (normalizeVector v)) = 1) ∧
    (∀ (pipeline : String → List ℝ) (t : String), isBlank t = false →
      generateEmbedding pipeline true t = normalizeVector (pipeline t) ∧
      generateEmbedding pipeline false t = pipeline t) := by
  refine ⟨?_, ?_, ?_⟩
  · intro v h
    unfold normalizeVector
    rw [if_pos h]
  · intro v h
    have hmap : normalizeVector v = v.map (fun x => x / Real.sqrt (sumSq v)) := by
      unfold normalizeVector
      rw [if_neg h]
    have hs0 : sumSq v ≠ 0 := by
      intro h0
      exact h (by rw [h0, Real.sqrt_zero])
    have hsq : sumSq (normalizeVector v) = 1 := by
      rw [hmap, sumSq_map_div, Real.mul_self_sqrt (sumSq_nonneg v), div_self hs0]
    exact ⟨hmap, hsq, by rw [hsq, Real.sqrt_one]⟩
  · intro pipeline t ht
    exact ⟨by simp [generateEmbedding, ht], by simp [generateEmbedding, ht]⟩

/-- Witness for C6 at concrete vectors: `[0, 0]` has zero magnitude and is
returned unchanged; `[3, 4]` has magnitude 5 and is rescaled to unit norm;
`"x"` is not blank and is normalized by default. -/
theorem normalizeVector_no_div_by_zero_w :
    Real.sqrt (sumSq [(0 : ℝ), 0]) = 0 ∧ normalizeVector [(0 : ℝ), 0] = [0, 0] ∧
    Real.sqrt (sumSq [(3 : ℝ), 4]) ≠ 0 ∧ sumSq (normalizeVector [(3 : ℝ), 4]) = 1 ∧
    isBlank "x" = false ∧
    generateEmbedding (fun _ => [(3 : ℝ), 4]) true "x" = normalizeVector [(3 : ℝ), 4] := by
  have hz : sumSq [(0 : ℝ), 0] = 0 := by norm_num [sumSq]
  have h0 : Real.sqrt (sumSq [(0 : ℝ), 0]) = 0 := by rw [hz, Real.sqrt_zero]
  have h34 : sumSq [(3 : ℝ), 4] = 25 := by norm_num [sumSq]
  have hne : Real.sqrt (sumSq [(3 : ℝ), 4]) ≠ 0 := by
    rw [h34]
    exact Real.sqrt_ne_zero'.mpr (by norm_num)
  have hb : isBlank "x" = false := by decide
  exact ⟨h0, normalizeVector_no_div_by_zero.1 [(0 : ℝ), 0] h0, hne,
    (normalizeVector_no_div_by_zero.2.1 [(3 : ℝ), 4] hne).2.1, hb,
    (normalizeVector_no_div_by_zero.2.2 (fun _ => [(3 : ℝ), 4]) "x" hb).1⟩

/-- C7 (confirmed): once a load attempt fails, the stored error is sticky —
every later acquire returns that same stored error without attempting a new
initialization — until `unloadModel` clears the pipeline, the error and the
loading flag, after which the next acquire performs a fresh load attempt. -/
theorem loadFailure_sticky {H E : Type} :
    (∀ (s : LoaderState H E) (e : E) (attempt : Except E H),
      s.embeddingPipeline = none → s.loadError = some e →
      getEmbeddingPipeline attempt s = some (.error e, s, false)) ∧
    (∀ (s : LoaderState H E) (e : E),
      s.embeddingPipeline = none → s.loadError = none → s.isLoading = false →
      getEmbeddingPipeline (.error e) s
        = some (.error e, ⟨none, false, some e⟩, true)) ∧
    (∀ s : LoaderState H E, unloadModel s = ⟨none, false, none⟩) ∧
    (∀ (s : LoaderState H E) (h : H),
      getEmbeddingPipeline (.ok h) (unloadModel s)
        = some (.ok h, ⟨some h, false, none⟩, true)) ∧
    (∀ (s : LoaderState H E) (e : E),
      getEmbeddingPipeline (.error e) (unloadModel s)
        = some (.error e, ⟨none, false, some e⟩, true)) := by
  refine ⟨?_, ?_, fun s => rfl, fun s h => rfl, fun s e => rfl⟩
  · intro s e attempt h1 h2
    unfold getEmbeddingPipeline
    rw [h1, h2]
  · intro s e h1 h2 h3
    unfold getEmbeddingPipeline
    rw [h1, h2, h3]
    rfl

/-- Witness for C7 at a concrete state: after a failure stored as `"boom"`,
an acquire whose fresh attempt would succeed with handle `3` still replays
`"boom"` without attempting; after `unloadModel` the same attempt loads
freshly. -/
theorem loadFailure_sticky_w :
    getEmbeddingPipeline (.ok 3) (⟨none, false, some "boom"⟩ : LoaderState Nat String)
      = some (.error "boom", ⟨none, false, some "boom"⟩, false) ∧
    getEmbeddingPipeline (.ok 3)
        (unloadModel (⟨none, false, some "boom"⟩ : LoaderState Nat String))
      = some (.ok 3, ⟨some 3, false, none⟩, true) :=
  ⟨loadFailure_sticky.1 ⟨none, false, some "boom"⟩ "boom" (.ok 3) rfl rfl,
    loadFailure_sticky.2.2.2.1 ⟨none, false, some "boom"⟩ 3⟩

/-- C9 (confirmed): `clearCache` deletes exactly the rows of the current
model version, returns the number of rows deleted, and resets both
counters, so an immediately following `getCacheStats` reports
`totalEntries = 0`, `hits = 0`, `misses = 0` (and a zero hit rate). -/
theorem clearCache_resets (current : String) (s : CacheState α) :
    (clearCache current s).1
      = (s.table.filter (fun r => r.model_version == current)).length ∧
    (∀ r : CacheRow α, r ∈ (clearCache current s).2.table ↔
      r ∈ s.table ∧ r.model_version ≠ current) ∧
    getCacheStats current (clearCache current s).2
      = { hits := 0, misses := 0, hitRate := 0, totalEntries := 0,
          modelVersion := current } := by
  refine ⟨rfl, ?_, ?_⟩
  · intro r
    simp [clearCache, resetCacheStats, List.mem_filter, bne_iff_ne]
  · have hnil : ((s.table.filter (fun r => r.model_version != current)).filter
        (fun r => r.model_version == current)) = [] := by
      rw [List.filter_filter]
      refine List.filter_eq_nil_iff.mpr fun a _ => ?_
      cases h : a.model_version == current <;> simp [h, bne]
    simp [getCacheStats, clearCache, resetCacheStats, hnil]

/-- C2 counterexample: with the cache holding one row for content hash
`"h"` stored under the old model version `"old-model-v1"`, a put of new
content with the same hash under the current version destroys that row —
entries stored under a different `model_version` for the same content are
NOT left unchanged, because the table's primary key is `content_hash`
alone. -/
theorem cacheEmbedding_crossVersion_cex :
    (⟨"h", 5, "old-model-v1", 384, 0⟩ : CacheRow Nat)
        ∈ (⟨[⟨"h", 5, "old-model-v1", 384, 0⟩], 0, 0⟩ : CacheState Nat).table ∧
    "old-model-v1" ≠ MODEL_NAME ∧
    (⟨"h", 5, "old-model-v1", 384, 0⟩ : CacheRow Nat)
        ∉ (cacheEmbedding (fun u => u) MODEL_NAME 1
            (⟨[⟨"h", 5, "old-model-v1", 384, 0⟩], 0, 0⟩ : CacheState Nat) "h" 7).table := by
  refine ⟨by simp, by decide, ?_⟩
  intro hmem
  rw [mem_cacheEmbedding_table] at hmem
  rcases hmem with h | ⟨_, hne⟩
  · exact absurd (congrArg CacheRow.model_version h) (by decide)
  · exact hne rfl

/-- C2 (corrected): `cacheEmbedding` upserts the row keyed by
`content_hash` alone — the new row is what a lookup for
`(hash content, currentModelVersion)` finds, a repeat store for the same
hash overwrites (at most one row per content hash remains), and every row
with a different content hash is left unchanged; but (contrary to the
claim) an existing row for the same content hash stored under a different
model version is replaced as well. -/
theorem cacheEmbedding_upsert (hash : String → String) (current : String)
    (now : Nat) (s : CacheState α) (content : String) (emb : α) :
    lookupRow hash current (cacheEmbedding hash current now s content emb).table content
      = some ⟨hash content, emb, current, MODEL_DIMENSIONS, now⟩ ∧
    (∀ r ∈ s.table, r.content_hash ≠ hash content →
      r ∈ (cacheEmbedding hash current now s content emb).table) ∧
    (∀ r ∈ (cacheEmbedding hash current now s content emb).table,
      r.content_hash = hash content →
        r = ⟨hash content, emb, current, MODEL_DIMENSIONS, now⟩) ∧
    (∀ r ∈ (cacheEmbedding hash current now s content emb).table,
      r ∈ s.table ∨ r = ⟨hash content, emb, current, MODEL_DIMENSIONS, now⟩) := by
  refine ⟨lookupRow_cacheEmbedding hash current now s content emb, ?_, ?_, ?_⟩
  · intro r hr hne
    rw [mem_cacheEmbedding_table]
    exact Or.inr ⟨hr, hne⟩
  · intro r hr heq
    rw [mem_cacheEmbedding_table] at hr
    rcases hr with h | ⟨_, hne⟩
    · exact h
    · exact absurd heq hne
  · intro r hr
    rw [mem_cacheEmbedding_table] at hr
    rcases hr with h | ⟨hmem, _⟩
    · exact Or.inr h
    · exact Or.inl hmem

/-- Witness for (amended) C2 at a concrete state: the put of content `"h"`
is found by a lookup, and the row for the distinct content hash `"keep"`
survives unchanged. -/
theorem cacheEmbedding_upsert_w :
    lookupRow (fun u => u) MODEL_NAME
        (cacheEmbedding (fun u => u) MODEL_NAME 1
          (⟨[⟨"keep", 5, MODEL_NAME, 384, 0⟩], 0, 0⟩ : CacheState Nat) "h" 7).table "h"
      = some ⟨"h", 7, MODEL_NAME, 384, 1⟩ ∧
    (⟨"keep", 5, MODEL_NAME, 384, 0⟩ : CacheRow Nat)
      ∈ (cacheEmbedding (fun u => u) MODEL_NAME 1
          (⟨[⟨"keep", 5, MODEL_NAME, 384, 0⟩], 0, 0⟩ : CacheState Nat) "h" 7).table :=
  ⟨(cacheEmbedding_upsert (fun u => u) MODEL_NAME 1
      (⟨[⟨"keep", 5, MODEL_NAME, 384, 0⟩], 0, 0⟩ : CacheState Nat) "h" 7).1,
    (cacheEmbedding_upsert (fun u => u) MODEL_NAME 1
      (⟨[⟨"keep", 5, MODEL_NAME, 384, 0⟩], 0, 0⟩ : CacheState Nat) "h" 7).2.1
      ⟨"keep", 5, MODEL_NAME, 384, 0⟩ (by simp) (by decide)⟩

/-- C4 (confirmed): `generateEmbeddingsCached` returns exactly one vector
per input text, positionally aligned with the input — the i-th output
resolves `texts[i]` against the initial table (its cached embedding on a
hit, the freshly computed embedding on a miss) — regardless of the
hit/miss pattern. -/
theorem generateEmbeddingsCached_order (hash : String → String)
    (current : String) (now : Nat) (embed : String → α) (zero : α)
    (bs? : Option Nat) (s : CacheState α) (texts : List String)
    (hbs : 1 ≤ bs?.getD defaultBatchSize) :
    (generateEmbeddingsCached hash current now embed zero true bs? s texts).map
        (fun r => r.1)
      = some (texts.map (resolveOne hash current embed zero s.table)) := by
  obtain ⟨s', hs⟩ :=
    generateEmbeddingsCached_eq hash current now embed zero bs? s texts hbs
  rw [hs]
  rfl

/-- Witness for C4 at a concrete state: with `"b"` pre-cached as `9` and
the model returning `1`, the request `["a", "b", "c"]` yields `[1, 9, 1]`
in that positional order. -/
theorem generateEmbeddingsCached_order_w :
    (generateEmbeddingsCached (fun u => u) "v" 0 (fun _ => (1 : Nat)) 0 true (some 2)
        (⟨[⟨"b", 9, "v", 384, 0⟩], 0, 0⟩ : CacheState Nat) ["a", "b", "c"]).map
        (fun r => r.1)
      = some [1, 9, 1] := by
  have h := generateEmbeddingsCached_order (fun u => u) "v" 0 (fun _ => (1 : Nat)) 0
    (some 2) (⟨[⟨"b", 9, "v", 384, 0⟩], 0, 0⟩ : CacheState Nat) ["a", "b", "c"]
    (by decide)
  rw [h]
  rfl

/-- C3 (confirmed): every progress event `generateEmbeddingsCached` emits
reports `total` equal to the full input length `n`; with `m` cache misses
the stream is `current = (n - m) + 1, …, n`, so the first freshly computed
item reports `current = hits + 1`, the final event reports `current = n`,
no event exceeds `total`, and every percentage is
`round(current / total * 100)`. -/
theorem generateEmbeddingsCached_progress (hash : String → String)
    (current : String) (now : Nat) (embed : String → α) (zero : α)
    (bs? : Option Nat) (s : CacheState α) (texts : List String)
    (hbs : 1 ≤ bs?.getD defaultBatchSize) :
    (generateEmbeddingsCached hash current now embed zero true bs? s texts).map
        (fun r => r.2.1)
      = some (adjProgressList texts.length
          (missedTexts hash current s.table texts).length) ∧
    (adjProgressList texts.length
        (missedTexts hash current s.table texts).length).all
      (fun e => e.total == texts.length && decide (e.current ≤ e.total)
        && e.percentage == roundPct e.current e.total) = true ∧
    ((missedTexts hash current s.table texts).length ≠ 0 →
      (adjProgressList texts.length
          (missedTexts hash current s.table texts).length)[0]?
        = some (mkProgress
            (texts.length - (missedTexts hash current s.table texts).length + 1)
            texts.length) ∧
      (adjProgressList texts.length
          (missedTexts hash current s.table texts).length)[(missedTexts hash current s.table texts).length - 1]?
        = some (mkProgress texts.length texts.length)) := by
  have hmn : (missedTexts hash current s.table texts).length ≤ texts.length :=
    List.length_filter_le _ texts
  refine ⟨?_, ?_, ?_⟩
  · obtain ⟨s', hs⟩ :=
      generateEmbeddingsCached_eq hash current now embed zero bs? s texts hbs
    rw [hs]
    rfl
  · refine List.all_eq_true.mpr fun e he => ?_
    simp only [adjProgressList, List.mem_map, List.mem_range] at he
    obtain ⟨k, hk, rfl⟩ := he
    have hle : texts.length - (missedTexts hash current s.table texts).length + (k + 1)
        ≤ texts.length := by omega
    simp [mkProgress, hle]
  · intro hm0
    constructor
    · simp [adjProgressList, List.getElem?_map,
        List.getElem?_range (show 0 < (missedTexts hash current s.table texts).length by omega)]
    · have h2 : (adjProgressList texts.length
          (missedTexts hash current s.table texts).length)[(missedTexts hash current s.table texts).length - 1]?
          = some (mkProgress
              (texts.length - (missedTexts hash current s.table texts).length
                + ((missedTexts hash current s.table texts).length - 1 + 1))
              texts.length) := by
        simp [adjProgressList, List.getElem?_map,
          List.getElem?_range
            (show (missedTexts hash current s.table texts).length - 1
              < (missedTexts hash current s.table texts).length by omega)]
      rw [h2]
      exact congrArg (fun x => some (mkProgress x texts.length)) (by omega)

/-- Witness for C3 at a concrete state: with `"b"` and `"d"` pre-cached,
the request `["a", "b", "c", "d"]` (2 hits, 2 misses) emits exactly the
events `(3, 4, 75)` and `(4, 4, 100)`. -/
theorem generateEmbeddingsCached_progress_w :
    (generateEmbeddingsCached (fun u => u) "v" 0 (fun _ => (1 : Nat)) 0 true (some 32)
        (⟨[⟨"b", 9, "v", 384, 0⟩, ⟨"d", 8, "v", 384, 0⟩], 0, 0⟩ : CacheState Nat)
        ["a", "b", "c", "d"]).map (fun r => r.2.1)
      = some [⟨3, 4, 75⟩, ⟨4, 4, 100⟩] := by
  have h := (generateEmbeddingsCached_progress (fun u => u) "v" 0 (fun _ => (1 : Nat)) 0
    (some 32)
    (⟨[⟨"b", 9, "v", 384, 0⟩, ⟨"d", 8, "v", 384, 0⟩], 0, 0⟩ : CacheState Nat)
    ["a", "b", "c", "d"] (by decide)).1
  rw [h]
  rfl

/-- C1 counterexample: `generateEmbeddingCached` on the empty text with an
empty cache returns the zero vector but leaves the cache NON-empty — a row
for the blank text was created, refuting "that zero vector is never
written to the embedding cache". -/
theorem blank_input_cached_cex :
    (generateEmbeddingCached (fun u => u) MODEL_NAME 0 (fun _ => zeroVec) zeroVec true
        (⟨[], 0, 0⟩ : CacheState (List ℚ)) "").1 = zeroVec ∧
    (generateEmbeddingCached (fun u => u) MODEL_NAME 0 (fun _ => zeroVec) zeroVec true
        (⟨[], 0, 0⟩ : CacheState (List ℚ)) "").2.table ≠ [] := by
  refine ⟨rfl, fun hcontra => ?_⟩
  exact List.cons_ne_nil _ _ hcontra

/-- C1 (corrected): for blank (empty or whitespace-only) text `t` not
already cached, both `generateEmbeddingCached` and
`generateEmbeddingsCached` return the all-zero vector of length
`MODEL_DIMENSIONS` for `t`, but — contrary to the claim — the zero vector
IS written to the cache: after either call a row
`(hash t, currentModelVersion)` holding the zero vector exists. -/
theorem blank_input_zero_vector (hash : String → String) (current : String)
    (now : Nat) (embed : String → List ℚ) (bs? : Option Nat)
    (s : CacheState (List ℚ)) (t : String)
    (hb : isBlank t = true)
    (hmiss : lookupRow hash current s.table t = none)
    (hbs : 1 ≤ bs?.getD defaultBatchSize) :
    (generateEmbeddingCached hash current now embed zeroVec true s t).1 = zeroVec ∧
    zeroVec.length = MODEL_DIMENSIONS ∧
    lookupRow hash current
        (generateEmbeddingCached hash current now embed zeroVec true s t).2.table t
      = some ⟨hash t, zeroVec, current, MODEL_DIMENSIONS, now⟩ ∧
    (generateEmbeddingsCached hash current now embed zeroVec true bs? s [t]).map
        (fun r => r.1) = some [zeroVec] ∧
    (generateEmbeddingsCached hash current now embed zeroVec true bs? s [t]).map
        (fun r => lookupRow hash current r.2.2.table t)
      = some (some ⟨hash t, zeroVec, current, MODEL_DIMENSIONS, now⟩) := by
  have hproc : processItem embed zeroVec t = zeroVec := by
    simp [processItem, hb]
  have hone : generateEmbeddingCached hash current now embed zeroVec true s t
      = (zeroVec, cacheEmbedding hash current now
          { s with cacheMisses := s.cacheMisses + 1 } t zeroVec) := by
    simp [generateEmbeddingCached, getCachedEmbedding, hmiss, hproc]
  have hmany : generateEmbeddingsCached hash current now embed zeroVec true bs? s [t]
      = some ([zeroVec], [mkProgress 1 1],
          cacheEmbedding hash current now
            { s with cacheMisses := s.cacheMisses + 1 } t zeroVec) := by
    simp [generateEmbeddingsCached, probeLoop, getCachedEmbedding, hmiss,
      generateEmbeddings_eq embed zeroVec bs? hbs, hproc, mergeResults,
      progressList, mkProgress]
    decide
  refine ⟨by rw [hone], by simp [zeroVec], ?_, by rw [hmany]; rfl, ?_⟩
  · rw [hone]
    exact lookupRow_cacheEmbedding hash current now _ t zeroVec
  · rw [hmany]
    exact congrArg some (lookupRow_cacheEmbedding hash current now _ t zeroVec)

/-- Witness for (amended) C1 at a concrete input: the whitespace-only text
`" "` against an empty cache yields the zero vector, and the zero vector is
then found in the cache under its hash and the current model version. -/
theorem blank_input_zero_vector_w :
    (generateEmbeddingCached (fun u => u) MODEL_NAME 0 (fun _ => ([] : List ℚ)) zeroVec
        true (⟨[], 0, 0⟩ : CacheState (List ℚ)) " ").1 = zeroVec ∧
    lookupRow (fun u => u) MODEL_NAME
        (generateEmbeddingCached (fun u => u) MODEL_NAME 0 (fun _ => ([] : List ℚ))
          zeroVec true (⟨[], 0, 0⟩ : CacheState (List ℚ)) " ").2.table " "
      = some ⟨" ", zeroVec, MODEL_NAME, MODEL_DIMENSIONS, 0⟩ :=
  ⟨(blank_input_zero_vector (fun u => u) MODEL_NAME 0 (fun _ => ([] : List ℚ))
      (some 32) (⟨[], 0, 0⟩ : CacheState (List ℚ)) " " (by decide) rfl (by decide)).1,
    (blank_input_zero_vector (fun u => u) MODEL_NAME 0 (fun _ => ([] : List ℚ))
      (some 32) (⟨[], 0, 0⟩ : CacheState (List ℚ)) " " (by decide) rfl (by decide)).2.2.1⟩

end AiosEmbeddings
